import Mathlib

/-!
# Verification of the `word_cookies` dictionary matcher

Shallow embedding of `src/word_cookies/solver.py`.

A Python string is modelled as the list of its characters' Unicode code
points (`List Nat`); a dictionary is a list of such strings.  Python's
`str.lower()` is modelled on the ASCII range, which is the range the
program's case handling is about: code points 65–90 (`A`–`Z`) map to
97–122 (`a`–`z`), everything else is unchanged.
-/

/-- A Python string, as the list of its characters' code points. -/
abbrev PyStr := List Nat

/-- `str.lower()` on one character: ASCII uppercase maps to lowercase,
everything else is unchanged. -/
def lower_char (c : Nat) : Nat :=
  if 65 ≤ c ∧ c ≤ 90 then c + 32 else c

/-- `str.lower()` on a whole string. -/
def lower (s : PyStr) : PyStr :=
  s.map lower_char

/-- The `for letter in word` loop of `word_works`, with the mutable
`letters_remaining` made an explicit argument.  `letter in letters_remaining`
is list membership; `letters_remaining.replace(letter, '', 1)` removes the
first occurrence, i.e. `List.erase`. -/
def word_works_loop (letters_remaining : PyStr) (word : PyStr)
    (allow_repeats : Bool) : Bool :=
  match word with
  | [] => true
  | letter :: rest =>
    if letter ∈ letters_remaining then
      if allow_repeats then
        word_works_loop letters_remaining rest allow_repeats
      else
        word_works_loop (letters_remaining.erase letter) rest allow_repeats
    else
      false

/-- `word_works(letters, word, allow_repeats)` from `solver.py`:
`letters_remaining = letters.lower()`, then the per-character loop. -/
def word_works (letters word : PyStr) (allow_repeats : Bool) : Bool :=
  word_works_loop (lower letters) word allow_repeats

/-- `match_words(letters, dictionary, allow_repeats)` from `solver.py`:
append each word of `dictionary` that passes `word_works` to the results,
in input order. -/
def match_words (letters : PyStr) (dictionary : List PyStr)
    (allow_repeats : Bool) : List PyStr :=
  match dictionary with
  | [] => []
  | word :: rest =>
    if word_works letters word allow_repeats then
      word :: match_words letters rest allow_repeats
    else
      match_words letters rest allow_repeats

-- Spec scenarios 1–6 as sanity checks ("wdro" = [119,100,114,111], etc.)
example : word_works [119,100,114,111] [119,111,114,100] false = true := by decide
example : word_works [119,100,114,111] [119,111,111,100] false = false := by decide
example : word_works [119,100,114,111] [119,111,111,100] true = true := by decide
example : match_words [99,97,116]
    [[99,97,116],[97,99,116],[97,116],[100,111,103],[99,97,116,115]] false
    = [[99,97,116],[97,99,116],[97,116]] := by decide
example : match_words [] [[97],[]] false = [[]] := by decide
example : match_words [97,97,98] [[97,97,98],[97,97,97,98]] false
    = [[97,97,98]] := by decide
-- Case handling: pool "A" (65) is lowered, word "a" (97) matches.
example : word_works [65] [97] false = true := by decide
-- The word is not lowered: word "A" (65) never matches.
example : word_works [65] [65] false = false := by decide

/-! ## Characterizations of the two consumption policies -/

/-- The non-repeat loop succeeds iff the word's character counts are
covered by the remaining pool's counts. -/
theorem word_works_loop_false_iff (pool word : PyStr) :
    word_works_loop pool word false = true ↔
      ∀ c, word.count c ≤ pool.count c := by
  induction word generalizing pool with
  | nil => simp [word_works_loop]
  | cons letter rest ih =>
    by_cases hmem : letter ∈ pool
    · simp only [word_works_loop, if_pos hmem, if_neg Bool.false_ne_true]
      rw [ih]
      constructor
      · intro h c
        rcases eq_or_ne c letter with rfl | hne
        · have h1 := h c
          rw [List.count_erase_self] at h1
          have hpos : 0 < pool.count c := List.count_pos_iff.mpr hmem
          rw [List.count_cons_self]
          omega
        · have h1 := h c
          rw [List.count_erase_of_ne hne] at h1
          rw [List.count_cons_of_ne hne]
          exact h1
      · intro h c
        rcases eq_or_ne c letter with rfl | hne
        · have h1 := h c
          rw [List.count_cons_self] at h1
          rw [List.count_erase_self]
          omega
        · have h1 := h c
          rw [List.count_cons_of_ne hne] at h1
          rw [List.count_erase_of_ne hne]
          exact h1
    · have h0 : pool.count letter = 0 := List.count_eq_zero.mpr hmem
      simp only [word_works_loop, if_neg hmem]
      constructor
      · intro h
        exact absurd h (by simp)
      · intro h
        have h1 := h letter
        rw [List.count_cons_self, h0] at h1
        omega

/-- The repeat loop succeeds iff every character of the word is in the pool. -/
theorem word_works_loop_true_iff (pool word : PyStr) :
    word_works_loop pool word true = true ↔ ∀ c ∈ word, c ∈ pool := by
  induction word with
  | nil => simp [word_works_loop]
  | cons letter rest ih =>
    by_cases hmem : letter ∈ pool
    · simp [word_works_loop, hmem, ih]
    · simp [word_works_loop, hmem]

/-- `word_works` under the non-repeat policy, in terms of counts over the
lower-cased pool. -/
theorem word_works_false_iff (letters word : PyStr) :
    word_works letters word false = true ↔
      ∀ c, word.count c ≤ (lower letters).count c :=
  word_works_loop_false_iff (lower letters) word

/-- `word_works` under the repeat policy, in terms of membership in the
lower-cased pool. -/
theorem word_works_true_iff (letters word : PyStr) :
    word_works letters word true = true ↔
      ∀ c ∈ word, c ∈ lower letters :=
  word_works_loop_true_iff (lower letters) word

/-- `match_words` is the filter of the dictionary through `word_works`. -/
theorem match_words_eq_filter (letters : PyStr) (dictionary : List PyStr)
    (allow_repeats : Bool) :
    match_words letters dictionary allow_repeats =
      dictionary.filter (fun w => word_works letters w allow_repeats) := by
  induction dictionary with
  | nil => rfl
  | cons w rest ih =>
    by_cases h : word_works letters w allow_repeats = true
    · simp [match_words, List.filter_cons, h, ih]
    · simp [match_words, List.filter_cons, h, ih]

/-- Lowering a character twice is the same as lowering it once. -/
theorem lower_char_idem (c : Nat) : lower_char (lower_char c) = lower_char c := by
  by_cases h : 65 ≤ c ∧ c ≤ 90
  · simp only [lower_char, if_pos h]
    rw [if_neg (by omega)]
  · simp only [lower_char, if_neg h]

/-- Lowering a string twice is the same as lowering it once. -/
theorem lower_idem (s : PyStr) : lower (lower s) = lower s := by
  simp only [lower, List.map_map]
  exact List.map_congr_left fun c _ => lower_char_idem c

/-- An ASCII uppercase code point never occurs in a lower-cased string. -/
theorem upper_not_mem_lower (c : Nat) (L : PyStr) (h65 : 65 ≤ c) (h90 : c ≤ 90) :
    c ∉ lower L := by
  intro hc
  obtain ⟨d, _, hd⟩ := List.mem_map.mp hc
  by_cases h : 65 ≤ d ∧ d ≤ 90
  · rw [lower_char, if_pos h] at hd
    omega
  · rw [lower_char, if_neg h] at hd
    omega

/-- Two booleans that are `true` for the same reason are equal. -/
theorem bool_eq_of_true_iff (a b : Bool) (h : a = true ↔ b = true) : a = b := by
  cases a <;> cases b <;> simp_all

/-! ## The claims -/

/-- C1: under the non-repeat policy, `word_works L w false` is true iff every
distinct character `c` occurring in `w` occurs at most as often in `w` as in
the lower-cased pool `L`. -/
theorem word_works_nonrepeat_count_iff (L w : PyStr) :
    word_works L w false = true ↔
      ∀ c ∈ w, w.count c ≤ (lower L).count c := by
  rw [word_works_false_iff]
  constructor
  · intro h c _
    exact h c
  · intro h c
    by_cases hc : c ∈ w
    · exact h c hc
    · simp [List.count_eq_zero.mpr hc]

/-- C2: under the repeat policy, `word_works L w true` is true iff every
distinct character of `w` occurs at least once in the lower-cased pool `L`;
the pool is never consumed, so one occurrence suffices for any number of
uses. -/
theorem word_works_repeat_mem_iff (L w : PyStr) :
    word_works L w true = true ↔ ∀ c ∈ w, c ∈ lower L :=
  word_works_true_iff L w

/-- C3: `match_words L D p` is exactly the subsequence of `D` whose words pass
`word_works`, in input order, with no sorting or deduplication: it equals the
filter of `D` and is a sublist of `D`. -/
theorem match_words_is_filtered_subsequence (L : PyStr) (D : List PyStr)
    (p : Bool) :
    match_words L D p = D.filter (fun w => word_works L w p) ∧
      (match_words L D p).Sublist D := by
  refine ⟨match_words_eq_filter L D p, ?_⟩
  rw [match_words_eq_filter L D p]
  exact List.filter_sublist D

/-- C4: the repeat policy is more permissive than the non-repeat policy: if a
word works without repeats, it also works with repeats. -/
theorem word_works_repeat_of_nonrepeat (L w : PyStr)
    (h : word_works L w false = true) : word_works L w true = true := by
  rw [word_works_true_iff]
  rw [word_works_false_iff] at h
  intro c hc
  have h1 := h c
  have h2 : 0 < w.count c := List.count_pos_iff.mpr hc
  exact List.count_pos_iff.mp (by omega)

/-- Witness for C4 at the pool "cat" and the word "cat". -/
theorem word_works_repeat_of_nonrepeat_witness :
    word_works [99,97,116] [99,97,116] false = true ∧
      word_works [99,97,116] [99,97,116] true = true :=
  ⟨by decide, word_works_repeat_of_nonrepeat [99,97,116] [99,97,116] (by decide)⟩

/-- C5: with an empty pool, every word returned by `match_words` is the empty
word, under both policies; and the concrete scenario
`match_words("", ["a", ""], allow_repeats=False) = [""]` holds. -/
theorem match_words_empty_pool :
    (∀ (D : List PyStr) (p : Bool) (w : PyStr),
        w ∈ match_words [] D p → w = []) ∧
      match_words [] [[97], []] false = [[]] := by
  refine ⟨?_, by decide⟩
  intro D p w hw
  rw [match_words_eq_filter] at hw
  have hworks : word_works [] w p = true := (List.mem_filter.mp hw).2
  cases w with
  | nil => rfl
  | cons c rest =>
    simp [word_works, lower, word_works_loop] at hworks

/-- C6: only the pool is case-normalized: `word_works` is unchanged when the
pool is replaced by its lower-casing, for either policy. -/
theorem word_works_lower_pool (L w : PyStr) (p : Bool) :
    word_works L w p = word_works (lower L) w p := by
  unfold word_works
  rw [lower_idem]

/-- C7: the empty word is vacuously spellable from any pool under both
policies. -/
theorem word_works_empty_word (L : PyStr) (p : Bool) :
    word_works L [] p = true := rfl

/-- C8: `match_words` is deterministic: two invocations on equal inputs give
equal outputs. -/
theorem match_words_deterministic (L₁ L₂ : PyStr) (D₁ D₂ : List PyStr)
    (p₁ p₂ : Bool) (hL : L₁ = L₂) (hD : D₁ = D₂) (hp : p₁ = p₂) :
    match_words L₁ D₁ p₁ = match_words L₂ D₂ p₂ := by
  subst hL
  subst hD
  subst hp
  rfl

/-- Witness for C8 on the pool "c" and the dictionary ["c"]. -/
theorem match_words_deterministic_witness :
    ([99] : PyStr) = [99] ∧ ([[99]] : List PyStr) = [[99]] ∧ false = false ∧
      match_words [99] [[99]] false = match_words [99] [[99]] false :=
  ⟨rfl, rfl, rfl,
    match_words_deterministic [99] [99] [[99]] [[99]] false false rfl rfl rfl⟩

/-- C9: a word containing an ASCII uppercase code point (65–90) fails
`word_works` for every pool and either policy, because the lower-cased pool
cannot contain it. -/
theorem word_works_uppercase_fails (L w : PyStr) (p : Bool) (c : Nat)
    (hcw : c ∈ w) (h65 : 65 ≤ c) (h90 : c ≤ 90) :
    word_works L w p = false := by
  cases p with
  | false =>
    rw [Bool.eq_false_iff]
    intro h
    rw [word_works_false_iff] at h
    have h1 := h c
    have h2 : (lower L).count c = 0 :=
      List.count_eq_zero.mpr (upper_not_mem_lower c L h65 h90)
    have h3 : 0 < w.count c := List.count_pos_iff.mpr hcw
    omega
  | true =>
    rw [Bool.eq_false_iff]
    intro h
    rw [word_works_true_iff] at h
    exact upper_not_mem_lower c L h65 h90 (h c hcw)

/-- Witness for C9: the word "A" (65) fails against the pool "Aa" ([65, 97]). -/
theorem word_works_uppercase_fails_witness :
    (65 : Nat) ∈ ([65] : PyStr) ∧ 65 ≤ 65 ∧ (65 : Nat) ≤ 90 ∧
      word_works [65, 97] [65] false = false :=
  ⟨by decide, by decide, by decide,
    word_works_uppercase_fails [65, 97] [65] false 65
      (by decide) (by decide) (by decide)⟩

/-- C10: the pool is a multiset: permuting the pool string never changes
`word_works`, under either policy. -/
theorem word_works_perm_pool (L L' w : PyStr) (p : Bool)
    (hperm : L.Perm L') : word_works L w p = word_works L' w p := by
  have hl : (lower L).Perm (lower L') := hperm.map lower_char
  apply bool_eq_of_true_iff
  cases p with
  | false =>
    rw [word_works_false_iff, word_works_false_iff]
    constructor
    · intro h c
      rw [← hl.count_eq c]
      exact h c
    · intro h c
      rw [hl.count_eq c]
      exact h c
  | true =>
    rw [word_works_true_iff, word_works_true_iff]
    constructor
    · intro h c hc
      exact hl.mem_iff.mp (h c hc)
    · intro h c hc
      exact hl.mem_iff.mpr (h c hc)

/-- Witness for C10 on the pools "ab" and "ba" and the word "ba". -/
theorem word_works_perm_pool_witness :
    (([97, 98] : PyStr).Perm [98, 97]) ∧
      word_works [97, 98] [98, 97] false = word_works [98, 97] [98, 97] false :=
  ⟨List.Perm.swap 98 97 [],
    word_works_perm_pool [97, 98] [98, 97] [98, 97] false
      (List.Perm.swap 98 97 [])⟩
